import Mathlib

/-!
# Verification of the quantized elementwise multiply kernel

Shallow embedding of `multiply` from `src/quantization_computation.ipynb`
(repository `windmaple/quantization-kernel-codelab`), together with models of
the helpers it imports from the repository modules `quantization_utils` and
`quantization` (not present under `src/`), which are modelled from the spec.

Conventions of the embedding:
* numpy fixed-width signed integers of width `w` are embedded as `ℤ` with an
  an explicit twos-complement wrap `toSigned w` applied exactly where the Python
  code performs a `datatype(...)` cast or a numpy arithmetic operation that
  stays at width `w`;
* Python floats are embedded as `ℚ` with exact arithmetic (`np.frexp` is exact
  on floats, and multiplying a mantissa by a power of two is exact, so the only
  rounding step of the decomposition — the final integer cast — is modelled
  exactly by truncation);
* the `for` loop writing `output_tensor.value.ravel()[i]` is embedded as a
  fuel-indexed recursion over the flat buffers; an out-of-range numpy index
  raises, which is embedded as an `indexError` outcome carrying the buffer
  state at the time of the raise.
-/

/-- Runtime failures the notebook code can actually raise: the `assert False`
on an unsupported `datatype`, and a numpy out-of-bounds index. -/
inductive Err where
  | assertionFailed
  | indexError
deriving DecidableEq

/-- Tensor (from the repository module `quantization`, used by the kernel as
a plain record): flat value buffer, scale, zero point.  Values and zero point
are integers; the scale is an exact rational standing for the Python float. -/
structure Tensor where
  value : List ℤ
  scale : ℚ
  zero_point : ℤ
deriving DecidableEq

/-- The `datatype` argument of `multiply`: `np.int32`, `np.int16`, or any
other object (which trips the `assert False` branch). -/
inductive Dtype where
  | i32
  | i16
  | other
deriving DecidableEq

/-- The `multiplier_shift` selected by the `if datatype == np.int32 / np.int16`
chain; `none` models falling through to `assert False`. -/
def Dtype.multiplierShift : Dtype → Option ℕ
  | .i32 => some 31
  | .i16 => some 15
  | .other => none

/-- Twos-complement wrap of an integer to signed width `w`: the semantics of
a numpy cast / overflow at width `w`. -/
def toSigned (w : ℕ) (x : ℤ) : ℤ :=
  (x + 2 ^ (w - 1)) % 2 ^ w - 2 ^ (w - 1)

/-- The clamp `min(max(x, lo), hi)` exactly as the Python code writes it. -/
def clamp (x lo hi : ℤ) : ℤ :=
  min (max x lo) hi

/-- Truncation of a rational toward zero: the semantics of the numpy
`datatype(...)` cast applied to a float. -/
def truncQ (q : ℚ) : ℤ :=
  if 0 ≤ q then ⌊q⌋ else -⌊-q⌋

/-- The model of `np.frexp`: decompose `q` into `(mantissa, e)` with `q = mantissa * 2 ^ e`
and `|mantissa| ∈ [1/2, 1)` for `q ≠ 0`; `np.frexp 0 = (0, 0)`.  Exact on
floats, so embedded exactly on `ℚ`. -/
def frexp (q : ℚ) : ℚ × ℤ :=
  if q = 0 then (0, 0)
  else
    let e := Int.log 2 |q| + 1
    (q / 2 ^ e, e)

/-- The fixed-point decomposition performed at the top of `multiply`:
`multipler_float, shift = np.frexp(real_scale)` followed by
`multiplier = datatype(multipler_float * (2 ** multiplier_shift))`.
The integer cast truncates toward zero; it never wraps because
`|multipler_float| < 1` keeps the product inside the signed width. -/
def decompose (q : ℚ) (msh : ℕ) : ℤ × ℤ :=
  let p := frexp q
  (truncQ (p.1 * 2 ^ msh), p.2)

/-- Modelled from the spec: `saturate_rounding_doubling_multiply` is imported
from the repository module `quantization_utils`, which is not under `src/`.
Per spec §4.2 it returns the rounded high half of the double-width product,
`round(a * b / 2 ^ (N-1))` with round-half-away-from-zero, clamped
(saturated) to the signed range `[-2^(N-1), 2^(N-1) - 1]` of width `N`. -/
def saturate_rounding_doubling_multiply (a b : ℤ) (N : ℕ) : ℤ :=
  let p := a * b
  let d : ℤ := 2 ^ (N - 1)
  let r := if 0 ≤ p then (p + d / 2) / d else -((-p + d / 2) / d)
  clamp r (-2 ^ (N - 1)) (2 ^ (N - 1) - 1)

/-- Modelled from the spec: `apply_shift` is imported from the repository
module `quantization_utils`, which is not under `src/`.  Per spec §4.3
(RoundingShift): for `shift ≥ 0` an exact left shift `value * 2 ^ shift`
(the implementation may widen internally, so no wrap is modelled); for
`shift < 0` a right shift by `k = -shift` rounding half away from zero,
symmetric across the sign of `value`. -/
def apply_shift (value : ℤ) (shift : ℤ) : ℤ :=
  if 0 ≤ shift then value * 2 ^ shift.toNat
  else
    let k := (-shift).toNat
    if 0 ≤ value then (value + 2 ^ (k - 1)) / 2 ^ k
    else -((-value + 2 ^ (k - 1)) / 2 ^ k)

/-- The body of the `for` loop of `multiply` for one index `i`, given the
already-read element values `v1`, `v2`:
`lhs_value = datatype(v1); lhs_value -= zp1` (width-`w` numpy arithmetic),
likewise for the right-hand side, `temp = datatype(lhs_value * rhs_value)`,
the saturating rounding doubling multiply, the rounding shift, the addition
of the output zero point, and the final `np.int8(min(max(output, -128), 127))`
(the cast is the identity on the clamped range). -/
def elemStep (w : ℕ) (zp1 zp2 mlt shf ozp v1 v2 : ℤ) : ℤ :=
  let lhs_value := toSigned w (toSigned w v1 - zp1)
  let rhs_value := toSigned w (toSigned w v2 - zp2)
  let temp := toSigned w (lhs_value * rhs_value)
  let product := saturate_rounding_doubling_multiply temp mlt w
  let output := apply_shift product shf + ozp
  clamp output (-128) 127

/-- The `for i in range(tensor1.value.size)` loop of `multiply`, embedded as a
recursion on the remaining iteration count `fuel` (started at
`tensor1.value.size`) with current index `i` and current output buffer `buf`.
Each iteration reads `xs[i]` and `ys[i]` and writes `buf[i]`; an out-of-range
read or write raises `IndexError`, leaving the buffer as already written. -/
def mulLoop (w : ℕ) (zp1 zp2 mlt shf ozp : ℤ) (xs ys : List ℤ) :
    ℕ → ℕ → List ℤ → List ℤ × Option Err
  | 0, _, buf => (buf, none)
  | fuel + 1, i, buf =>
    match xs[i]?, ys[i]? with
    | some v1, some v2 =>
      if i < buf.length then
        mulLoop w zp1 zp2 mlt shf ozp xs ys fuel (i + 1)
          (buf.set i (elemStep w zp1 zp2 mlt shf ozp v1 v2))
      else (buf, some .indexError)
    | _, _ => (buf, some .indexError)

/-- The kernel `multiply(tensor1, tensor2, output_tensor, datatype)` from
`src/quantization_computation.ipynb`: compute
`real_scale = tensor1.scale * tensor2.scale / output_tensor.scale`, decompose
it with `np.frexp` and the truncating integer cast, select `multiplier_shift`
by datatype (`assert False` otherwise), then run the per-element loop writing
into the output buffer in index order.  Returns the final state of the output
tensor together with the raised error, if any. -/
def multiply (tensor1 tensor2 output_tensor : Tensor) (datatype : Dtype) :
    Tensor × Option Err :=
  let real_scale := tensor1.scale * tensor2.scale / output_tensor.scale
  match datatype.multiplierShift with
  | none => (output_tensor, some .assertionFailed)
  | some msh =>
    let p := decompose real_scale msh
    let w := msh + 1
    let r := mulLoop w tensor1.zero_point tensor2.zero_point p.1 p.2
        output_tensor.zero_point tensor1.value tensor2.value
        tensor1.value.length 0 output_tensor.value
    ({ output_tensor with value := r.1 }, r.2)

/-- The in-place call embedded as a transformer on the full heap-visible state
`(tensor1, tensor2, output_tensor)`.  The loop body of the source assigns only
`output_tensor.value.ravel()[i]`; the locals `lhs_value` and `rhs_value` are
numpy scalars rebound by `-=`, and no attribute of `tensor1` or `tensor2` is
ever assigned, so the input components of the state pass through unchanged. -/
def multiplyInPlace (s : Tensor × Tensor × Tensor) (datatype : Dtype) :
    (Tensor × Tensor × Tensor) × Option Err :=
  let r := multiply s.1 s.2.1 s.2.2 datatype
  ((s.1, s.2.1, r.1), r.2)

/-! ## Basic arithmetic lemmas -/

lemma toSigned_eq_self {w : ℕ} (hw : 0 < w) {x : ℤ}
    (hlo : -2 ^ (w - 1) ≤ x) (hhi : x < 2 ^ (w - 1)) : toSigned w x = x := by
  unfold toSigned
  have hpow : (2 : ℤ) ^ w = 2 ^ (w - 1) * 2 := by
    rw [← pow_succ]
    congr 1
    omega
  rw [Int.emod_eq_of_lt (by omega) (by omega)]
  omega

lemma clamp_lipschitz (a b lo hi : ℤ) : |clamp a lo hi - clamp b lo hi| ≤ |a - b| := by
  unfold clamp
  rcases abs_cases (a - b) with ⟨h1, h2⟩ <;> rcases le_total a b with h <;>
    simp [abs_le] <;> omega

lemma int_log_eval {q : ℚ} {e : ℤ} (h1 : (2 : ℚ) ^ e ≤ q) (h2 : q < 2 ^ (e + 1)) :
    Int.log 2 q = e := by
  have hq : 0 < q := lt_of_lt_of_le (zpow_pos two_pos e) h1
  have ha : e ≤ Int.log 2 q := by
    rw [← Int.zpow_le_iff_le_log one_lt_two hq]
    exact_mod_cast h1
  have hb : Int.log 2 q < e + 1 := by
    rw [← Int.lt_zpow_iff_log_lt one_lt_two hq]
    exact_mod_cast h2
  omega

/-! ## Loop characterization -/

lemma mulLoop_ok (w : ℕ) (zp1 zp2 mlt shf ozp : ℤ) (xs ys : List ℤ) :
    ∀ (fuel i : ℕ) (buf : List ℤ),
      (∀ j, j < fuel → i + j < xs.length ∧ i + j < ys.length ∧ i + j < buf.length) →
      (mulLoop w zp1 zp2 mlt shf ozp xs ys fuel i buf).2 = none ∧
      ∀ k, ((mulLoop w zp1 zp2 mlt shf ozp xs ys fuel i buf).1)[k]? =
        if i ≤ k ∧ k < i + fuel then
          some (elemStep w zp1 zp2 mlt shf ozp (xs.getD k 0) (ys.getD k 0))
        else buf[k]? := by
  intro fuel
  induction fuel with
  | zero =>
    intro i buf _
    refine ⟨rfl, fun k => ?_⟩
    rw [if_neg (by omega)]
    rfl
  | succ fuel ih =>
    intro i buf h
    obtain ⟨hx, hy, hb⟩ := h 0 (Nat.succ_pos fuel)
    rw [Nat.add_zero] at hx hy hb
    have hget : (mulLoop w zp1 zp2 mlt shf ozp xs ys (fuel + 1) i buf) =
        mulLoop w zp1 zp2 mlt shf ozp xs ys fuel (i + 1)
          (buf.set i (elemStep w zp1 zp2 mlt shf ozp xs[i] ys[i])) := by
      rw [mulLoop]
      rw [List.getElem?_eq_getElem hx, List.getElem?_eq_getElem hy]
      simp [hb]
    rw [hget]
    have hrec := ih (i + 1) (buf.set i (elemStep w zp1 zp2 mlt shf ozp xs[i] ys[i]))
      (by
        intro j hj
        obtain ⟨h1, h2, h3⟩ := h (j + 1) (by omega)
        refine ⟨by omega, by omega, ?_⟩
        rw [List.length_set]
        omega)
    refine ⟨hrec.1, fun k => ?_⟩
    rw [hrec.2 k]
    by_cases hk : i + 1 ≤ k ∧ k < i + 1 + fuel
    · rw [if_pos hk, if_pos (by omega)]
    · rw [if_neg hk]
      by_cases hki : k = i
      · subst hki
        rw [if_pos (by omega)]
        rw [List.getElem?_set]
        simp [hb, List.getD_eq_getElem xs 0 hx, List.getD_eq_getElem ys 0 hy,
          List.getElem?_eq_getElem hx, List.getElem?_eq_getElem hy]
      · rw [if_neg (by omega), List.getElem?_set, if_neg (by omega)]

lemma mulLoop_overrun (w : ℕ) (zp1 zp2 mlt shf ozp : ℤ) (xs ys : List ℤ) :
    ∀ (fuel i : ℕ) (buf : List ℤ),
      (∀ j, j < fuel → i + j < xs.length ∧ i + j < ys.length) →
      buf.length < i + fuel → i ≤ buf.length →
      (mulLoop w zp1 zp2 mlt shf ozp xs ys fuel i buf).2 = some .indexError ∧
      ∀ k, ((mulLoop w zp1 zp2 mlt shf ozp xs ys fuel i buf).1)[k]? =
        if i ≤ k ∧ k < buf.length then
          some (elemStep w zp1 zp2 mlt shf ozp (xs.getD k 0) (ys.getD k 0))
        else buf[k]? := by
  intro fuel
  induction fuel with
  | zero =>
    intro i buf _ hb hi
    omega
  | succ fuel ih =>
    intro i buf h hb hi
    obtain ⟨hx, hy⟩ := h 0 (Nat.succ_pos fuel)
    rw [Nat.add_zero] at hx hy
    by_cases hib : i < buf.length
    · have hget : (mulLoop w zp1 zp2 mlt shf ozp xs ys (fuel + 1) i buf) =
          mulLoop w zp1 zp2 mlt shf ozp xs ys fuel (i + 1)
            (buf.set i (elemStep w zp1 zp2 mlt shf ozp xs[i] ys[i])) := by
        rw [mulLoop]
        rw [List.getElem?_eq_getElem hx, List.getElem?_eq_getElem hy]
        simp [hib]
      rw [hget]
      have hrec := ih (i + 1) (buf.set i (elemStep w zp1 zp2 mlt shf ozp xs[i] ys[i]))
        (by
          intro j hj
          obtain ⟨h1, h2⟩ := h (j + 1) (by omega)
          exact ⟨by omega, by omega⟩)
        (by rw [List.length_set]; omega)
        (by rw [List.length_set]; omega)
      refine ⟨hrec.1, fun k => ?_⟩
      rw [hrec.2 k]
      rw [List.length_set]
      by_cases hk : i + 1 ≤ k ∧ k < buf.length
      · rw [if_pos hk, if_pos (by omega)]
      · rw [if_neg hk]
        by_cases hki : k = i
        · subst hki
          rw [if_pos (by omega)]
          rw [List.getElem?_set]
          simp [hib, List.getD_eq_getElem xs 0 hx, List.getD_eq_getElem ys 0 hy,
            List.getElem?_eq_getElem hx, List.getElem?_eq_getElem hy]
        · rw [if_neg (by omega), List.getElem?_set, if_neg (by omega)]
    · have hieq : i = buf.length := by omega
      have hget : (mulLoop w zp1 zp2 mlt shf ozp xs ys (fuel + 1) i buf) =
          (buf, some .indexError) := by
        rw [mulLoop]
        rw [List.getElem?_eq_getElem hx, List.getElem?_eq_getElem hy]
        simp [hib]
      rw [hget]
      refine ⟨rfl, fun k => ?_⟩
      rw [if_neg (by omega)]

/-! ## Decomposition lemmas -/

lemma frexp_pos_spec {q : ℚ} (hq : 0 < q) :
    q = (frexp q).1 * 2 ^ (frexp q).2 ∧ 1 / 2 ≤ (frexp q).1 ∧ (frexp q).1 < 1 := by
  have hne : q ≠ 0 := ne_of_gt hq
  have habs : |q| = q := abs_of_pos hq
  have hlog1 : (2 : ℚ) ^ Int.log 2 q ≤ q := by
    exact_mod_cast Int.zpow_log_le_self one_lt_two hq
  have hlog2 : q < (2 : ℚ) ^ (Int.log 2 q + 1) := by
    exact_mod_cast Int.lt_zpow_succ_log_self one_lt_two q
  rw [frexp]
  simp only [hne, if_false, habs]
  refine ⟨?_, ?_, ?_⟩
  · rw [div_mul_cancel₀]
    exact ne_of_gt (zpow_pos two_pos _)
  · rw [le_div_iff₀ (zpow_pos two_pos _)]
    calc 1 / 2 * (2 : ℚ) ^ (Int.log 2 q + 1) = 2 ^ Int.log 2 q := by
          rw [zpow_add_one₀ two_ne_zero]
          ring
      _ ≤ q := hlog1
  · rw [div_lt_one (zpow_pos two_pos _)]
    exact hlog2

lemma decompose_pos_eq {q : ℚ} (msh : ℕ) (hq : 0 < q) :
    decompose q msh = (⌊(frexp q).1 * 2 ^ msh⌋, (frexp q).2) := by
  obtain ⟨-, hlb, -⟩ := frexp_pos_spec hq
  have h0 : (0 : ℚ) ≤ (frexp q).1 := le_trans (by norm_num) hlb
  rw [decompose, truncQ, if_pos]
  positivity

lemma decompose_bounds {q : ℚ} {msh : ℕ} (hq : 0 < q) (hm : 1 ≤ msh) :
    (2 : ℤ) ^ (msh - 1) ≤ (decompose q msh).1 ∧ (decompose q msh).1 ≤ 2 ^ msh - 1 := by
  obtain ⟨-, hlb, hub⟩ := frexp_pos_spec hq
  rw [decompose_pos_eq msh hq]
  have hpow : (2 : ℚ) ^ msh = 2 ^ (msh - 1) * 2 := by
    rw [← pow_succ]
    congr 1
    omega
  constructor
  · rw [Int.le_floor]
    push_cast
    calc ((2 : ℚ) ^ (msh - 1)) = 1 / 2 * 2 ^ msh := by rw [hpow]; ring
      _ ≤ (frexp q).1 * 2 ^ msh := by
          have : (0 : ℚ) < 2 ^ msh := by positivity
          nlinarith
  · have : ⌊(frexp q).1 * 2 ^ msh⌋ < 2 ^ msh := by
      rw [Int.floor_lt]
      push_cast
      have : (0 : ℚ) < 2 ^ msh := by positivity
      nlinarith
    omega

lemma decompose_recon {q : ℚ} {msh : ℕ} (hq : 0 < q) :
    0 ≤ q - ((decompose q msh).1 : ℚ) / 2 ^ msh * 2 ^ (decompose q msh).2 ∧
    q - ((decompose q msh).1 : ℚ) / 2 ^ msh * 2 ^ (decompose q msh).2 <
      2 ^ (decompose q msh).2 / 2 ^ msh := by
  obtain ⟨heq, hlb, hub⟩ := frexp_pos_spec hq
  rw [decompose_pos_eq msh hq]
  set mf := (frexp q).1 with hmf
  set e := (frexp q).2 with he
  have hC : (0 : ℚ) < 2 ^ msh := by positivity
  have hB : (0 : ℚ) < (2 : ℚ) ^ e := zpow_pos two_pos _
  have hfl1 : (⌊mf * 2 ^ msh⌋ : ℚ) ≤ mf * 2 ^ msh := Int.floor_le _
  have hfl2 : mf * 2 ^ msh < ⌊mf * 2 ^ msh⌋ + 1 := Int.lt_floor_add_one _
  have key : q - (⌊mf * 2 ^ msh⌋ : ℚ) / 2 ^ msh * 2 ^ e
      = (mf * 2 ^ msh - ⌊mf * 2 ^ msh⌋) * ((2 : ℚ) ^ e / 2 ^ msh) := by
    rw [heq]
    field_simp
    simp only [Int.fract]
    ring
  rw [key]
  have hBC : (0 : ℚ) < (2 : ℚ) ^ e / 2 ^ msh := by positivity
  constructor
  · have h1 : (0 : ℚ) ≤ mf * 2 ^ msh - ⌊mf * 2 ^ msh⌋ := by linarith
    positivity
  · nlinarith

/-! ## Kernel characterization -/

lemma elemStep_no_wrap {w : ℕ} (hw : 0 < w) (zp1 zp2 mlt shf ozp v1 v2 : ℤ)
    (h1 : -2 ^ (w - 1) ≤ v1) (h1h : v1 < 2 ^ (w - 1))
    (h2 : -2 ^ (w - 1) ≤ v1 - zp1) (h2h : v1 - zp1 < 2 ^ (w - 1))
    (h3 : -2 ^ (w - 1) ≤ v2) (h3h : v2 < 2 ^ (w - 1))
    (h4 : -2 ^ (w - 1) ≤ v2 - zp2) (h4h : v2 - zp2 < 2 ^ (w - 1))
    (h5 : -2 ^ (w - 1) ≤ (v1 - zp1) * (v2 - zp2))
    (h5h : (v1 - zp1) * (v2 - zp2) < 2 ^ (w - 1)) :
    elemStep w zp1 zp2 mlt shf ozp v1 v2 =
      clamp
        (apply_shift
          (saturate_rounding_doubling_multiply ((v1 - zp1) * (v2 - zp2)) mlt w) shf + ozp)
        (-128) 127 := by
  simp only [elemStep, toSigned_eq_self hw h1 h1h, toSigned_eq_self hw h3 h3h,
    toSigned_eq_self hw h2 h2h, toSigned_eq_self hw h4 h4h,
    toSigned_eq_self hw h5 h5h]

lemma multiply_ok (t1 t2 out : Tensor) (msh : ℕ) (dt : Dtype)
    (hdt : dt.multiplierShift = some msh)
    (hlen2 : t1.value.length ≤ t2.value.length)
    (hlen3 : t1.value.length ≤ out.value.length) :
    (multiply t1 t2 out dt).2 = none ∧
    (multiply t1 t2 out dt).1.scale = out.scale ∧
    (multiply t1 t2 out dt).1.zero_point = out.zero_point ∧
    ∀ k, (multiply t1 t2 out dt).1.value[k]? =
      if k < t1.value.length then
        some (elemStep (msh + 1) t1.zero_point t2.zero_point
          (decompose (t1.scale * t2.scale / out.scale) msh).1
          (decompose (t1.scale * t2.scale / out.scale) msh).2
          out.zero_point (t1.value.getD k 0) (t2.value.getD k 0))
      else out.value[k]? := by
  have hloop := mulLoop_ok (msh + 1) t1.zero_point t2.zero_point
    (decompose (t1.scale * t2.scale / out.scale) msh).1
    (decompose (t1.scale * t2.scale / out.scale) msh).2
    out.zero_point t1.value t2.value t1.value.length 0 out.value
    (by intro j hj; exact ⟨by omega, by omega, by omega⟩)
  refine ⟨?_, ?_, ?_, fun k => ?_⟩
  · simp only [multiply, hdt]
    exact hloop.1
  · simp [multiply, hdt]
  · simp [multiply, hdt]
  · simp only [multiply, hdt]
    rw [hloop.2 k]
    by_cases hk : k < t1.value.length
    · rw [if_pos (by omega), if_pos hk]
    · rw [if_neg (by omega), if_neg hk]

lemma multiply_overrun (t1 t2 out : Tensor) (msh : ℕ) (dt : Dtype)
    (hdt : dt.multiplierShift = some msh)
    (hlen2 : t1.value.length ≤ t2.value.length)
    (hlen3 : out.value.length < t1.value.length) :
    (multiply t1 t2 out dt).2 = some .indexError ∧
    (multiply t1 t2 out dt).1.scale = out.scale ∧
    (multiply t1 t2 out dt).1.zero_point = out.zero_point ∧
    ∀ k, (multiply t1 t2 out dt).1.value[k]? =
      if k < out.value.length then
        some (elemStep (msh + 1) t1.zero_point t2.zero_point
          (decompose (t1.scale * t2.scale / out.scale) msh).1
          (decompose (t1.scale * t2.scale / out.scale) msh).2
          out.zero_point (t1.value.getD k 0) (t2.value.getD k 0))
      else out.value[k]? := by
  have hloop := mulLoop_overrun (msh + 1) t1.zero_point t2.zero_point
    (decompose (t1.scale * t2.scale / out.scale) msh).1
    (decompose (t1.scale * t2.scale / out.scale) msh).2
    out.zero_point t1.value t2.value t1.value.length 0 out.value
    (by intro j hj; exact ⟨by omega, by omega⟩) (by omega) (by omega)
  refine ⟨?_, ?_, ?_, fun k => ?_⟩
  · simp only [multiply, hdt]
    exact hloop.1
  · simp [multiply, hdt]
  · simp [multiply, hdt]
  · simp only [multiply, hdt]
    rw [hloop.2 k]
    by_cases hk : k < out.value.length
    · rw [if_pos (by omega), if_pos hk]
    · rw [if_neg (by omega), if_neg hk]

/-! ## Claim theorems -/

/-- C2: for every working width `N`, the saturating rounding multiply-high at
`a = b = -2^(N-1)` (both inputs the minimum representable value) returns
`2^(N-1) - 1` (the maximum): it saturates instead of wrapping. -/
theorem C2_multiply_high_min_min_saturates {N : ℕ} (hN : 0 < N) :
    saturate_rounding_doubling_multiply (-2 ^ (N - 1)) (-2 ^ (N - 1)) N
      = 2 ^ (N - 1) - 1 := by
  obtain ⟨m, rfl⟩ : ∃ m, N = m + 1 := ⟨N - 1, by omega⟩
  simp only [saturate_rounding_doubling_multiply, Nat.add_sub_cancel]
  rw [show ((-2 ^ m : ℤ) * -2 ^ m) = 2 ^ m * 2 ^ m from by ring]
  rw [if_pos (by positivity)]
  cases m with
  | zero => decide
  | succ k =>
    have hp2 : (0 : ℤ) < 2 ^ (k + 1) := pow_pos (by norm_num) _
    have hdiv2 : (2 : ℤ) ^ (k + 1) / 2 = 2 ^ k := by
      rw [pow_succ, Int.mul_ediv_cancel _ (by norm_num)]
    rw [hdiv2]
    rw [show ((2 : ℤ) ^ (k + 1) * 2 ^ (k + 1) + 2 ^ k)
        = 2 ^ k + 2 ^ (k + 1) * 2 ^ (k + 1) from by ring]
    rw [Int.add_mul_ediv_left _ _ (ne_of_gt hp2)]
    rw [Int.ediv_eq_zero_of_lt (by positivity) (by rw [pow_succ]; nlinarith [pow_pos (show (0:ℤ) < 2 from by norm_num) k])]
    unfold clamp
    rw [zero_add, max_eq_left (by linarith), min_eq_right (by linarith)]

/-- C2 witness: the saturation boundary at the 32-bit working width. -/
theorem C2_witness :
    (0 < 32) ∧ saturate_rounding_doubling_multiply (-2 ^ 31) (-2 ^ 31) 32 = 2 ^ 31 - 1 :=
  ⟨by decide, C2_multiply_high_min_min_saturates (by decide)⟩

/-- C3 (counterexample): at `real_scale = (2^32 + 3) / 2^33`, whose frexp
mantissa is the value itself (shift 0), the multiplier computed by the code is the
truncation `2^30`, not the round-to-nearest value `2^30 + 1` the claim
demands. -/
theorem C3_counterexample :
    decompose ((2 ^ 32 + 3) / 2 ^ 33 : ℚ) 31 = (2 ^ 30, 0) ∧
    (1 / 2 ≤ ((2 ^ 32 + 3) / 2 ^ 33 : ℚ) ∧ ((2 ^ 32 + 3) / 2 ^ 33 : ℚ) < 1) ∧
    round (((2 ^ 32 + 3) / 2 ^ 33 : ℚ) * 2 ^ 31) = 2 ^ 30 + 1 ∧
    (decompose ((2 ^ 32 + 3) / 2 ^ 33 : ℚ) 31).1 ≠
      round (((2 ^ 32 + 3) / 2 ^ 33 : ℚ) * 2 ^ 31) := by
  have hlog : Int.log 2 |((2 ^ 32 + 3) / 2 ^ 33 : ℚ)| = -1 := by
    rw [abs_of_pos (by norm_num)]
    apply int_log_eval <;> norm_num
  have hfx : frexp ((2 ^ 32 + 3) / 2 ^ 33 : ℚ) = ((2 ^ 32 + 3) / 2 ^ 33, 0) := by
    rw [frexp]
    rw [if_neg (by norm_num)]
    simp only [hlog]
    norm_num
  have hdec : decompose ((2 ^ 32 + 3) / 2 ^ 33 : ℚ) 31 = (2 ^ 30, 0) := by
    rw [decompose, hfx]
    simp only [truncQ]
    rw [if_pos (by norm_num)]
    have hfl : ⌊((2 ^ 32 + 3) / 2 ^ 33 * 2 ^ 31 : ℚ)⌋ = 2 ^ 30 := by
      rw [show ((2 ^ 32 + 3) / 2 ^ 33 * 2 ^ 31 : ℚ) = 2 ^ 30 + 3 / 4 from by norm_num]
      rw [Int.floor_eq_iff]
      norm_num
    rw [hfl]
  have hrnd : round (((2 ^ 32 + 3) / 2 ^ 33 : ℚ) * 2 ^ 31) = 2 ^ 30 + 1 := by
    rw [round_eq]
    rw [show ((2 ^ 32 + 3) / 2 ^ 33 * 2 ^ 31 : ℚ) = 2 ^ 30 + 3 / 4 from by norm_num]
    rw [show ((2 ^ 30 : ℚ) + 3 / 4 + 1 / 2) = (2 ^ 30 + 1) + 1 / 4 from by norm_num]
    rw [Int.floor_eq_iff]
    norm_num
  refine ⟨hdec, ⟨by norm_num, by norm_num⟩, hrnd, ?_⟩
  rw [hdec, hrnd]
  norm_num

/-- C3 (amended): the decomposition satisfies `real_scale = mantissa * 2^shift`
with `mantissa ∈ [0.5, 1)`, but the integer multiplier is the truncation
`⌊mantissa * 2^(N-1)⌋` (toward zero, which on the positive mantissa is the
floor), not round-to-nearest; no halve-and-increment branch exists, and none
is needed, because truncation never reaches `2^(N-1)`. -/
theorem C3_decompose_truncates (q : ℚ) (msh : ℕ) (hq : 0 < q) :
    q = (frexp q).1 * 2 ^ (frexp q).2 ∧
    1 / 2 ≤ (frexp q).1 ∧ (frexp q).1 < 1 ∧
    decompose q msh = (⌊(frexp q).1 * 2 ^ msh⌋, (frexp q).2) := by
  obtain ⟨a, b, c⟩ := frexp_pos_spec hq
  exact ⟨a, b, c, decompose_pos_eq msh hq⟩

/-- C3 witness: the amended decomposition contract at `real_scale = 3/2`,
working width 32. -/
theorem C3_witness :
    (0 < (3 / 2 : ℚ)) ∧
    ((3 / 2 : ℚ) = (frexp (3 / 2)).1 * 2 ^ (frexp (3 / 2 : ℚ)).2 ∧
      1 / 2 ≤ (frexp (3 / 2 : ℚ)).1 ∧ (frexp (3 / 2 : ℚ)).1 < 1 ∧
      decompose (3 / 2) 31 = (⌊(frexp (3 / 2 : ℚ)).1 * 2 ^ 31⌋, (frexp (3 / 2 : ℚ)).2)) :=
  ⟨by norm_num, C3_decompose_truncates (3 / 2) 31 (by norm_num)⟩

/-- C4: for positive `real_scale` and working width `N ∈ {16, 32}`, the
decomposed multiplier lies in `[2^(N-2), 2^(N-1) - 1]`, and the
reconstruction `multiplier / 2^(N-1) * 2^shift` under-approximates
`real_scale` by strictly less than one unit in the last place of the
multiplier, `2^shift / 2^(N-1)`. -/
theorem C4_multiplier_range_and_reconstruction (N : ℕ) (hN : N = 16 ∨ N = 32)
    (q : ℚ) (hq : 0 < q) :
    (2 : ℤ) ^ (N - 2) ≤ (decompose q (N - 1)).1 ∧
    (decompose q (N - 1)).1 ≤ 2 ^ (N - 1) - 1 ∧
    0 ≤ q - ((decompose q (N - 1)).1 : ℚ) / 2 ^ (N - 1) * 2 ^ (decompose q (N - 1)).2 ∧
    q - ((decompose q (N - 1)).1 : ℚ) / 2 ^ (N - 1) * 2 ^ (decompose q (N - 1)).2 <
      2 ^ (decompose q (N - 1)).2 / 2 ^ (N - 1) := by
  have hm : 1 ≤ N - 1 := by omega
  have hb := decompose_bounds hq hm
  have hr := @decompose_recon q (N - 1) hq
  have heq : N - 1 - 1 = N - 2 := by omega
  rw [heq] at hb
  exact ⟨hb.1, hb.2, hr.1, hr.2⟩

/-- C4 witness: the range and reconstruction bound at `real_scale = 3/2`,
working width 32. -/
theorem C4_witness :
    ((32 : ℕ) = 16 ∨ (32 : ℕ) = 32) ∧ (0 < (3 / 2 : ℚ)) ∧
    ((2 : ℤ) ^ (32 - 2) ≤ (decompose (3 / 2) (32 - 1)).1 ∧
      (decompose (3 / 2 : ℚ) (32 - 1)).1 ≤ 2 ^ (32 - 1) - 1 ∧
      0 ≤ (3 / 2 : ℚ) - ((decompose (3 / 2 : ℚ) (32 - 1)).1 : ℚ) / 2 ^ (32 - 1) *
          2 ^ (decompose (3 / 2 : ℚ) (32 - 1)).2 ∧
      (3 / 2 : ℚ) - ((decompose (3 / 2 : ℚ) (32 - 1)).1 : ℚ) / 2 ^ (32 - 1) *
          2 ^ (decompose (3 / 2 : ℚ) (32 - 1)).2 <
        2 ^ (decompose (3 / 2 : ℚ) (32 - 1)).2 / 2 ^ (32 - 1)) :=
  ⟨Or.inr rfl, by norm_num,
    C4_multiplier_range_and_reconstruction 32 (Or.inr rfl) (3 / 2) (by norm_num)⟩

/-- C10: calling `multiply` with a `datatype` other than `np.int32` and
`np.int16` trips the `assert False` branch before any per-element work: the
call fails with an assertion error and the output tensor is unchanged. -/
theorem C10_assert_on_other_dtype (t1 t2 out : Tensor) (dt : Dtype)
    (h1 : dt ≠ .i32) (h2 : dt ≠ .i16) :
    multiply t1 t2 out dt = (out, some .assertionFailed) := by
  cases dt with
  | i32 => exact absurd rfl h1
  | i16 => exact absurd rfl h2
  | other => rfl

/-- C10 witness: a concrete invocation with an unsupported datatype. -/
theorem C10_witness :
    (Dtype.other ≠ Dtype.i32) ∧ (Dtype.other ≠ Dtype.i16) ∧
    multiply ⟨[5], 1, 0⟩ ⟨[6], 1, 0⟩ ⟨[0], 1, 0⟩ .other
      = (⟨[0], 1, 0⟩, some .assertionFailed) :=
  ⟨by decide, by decide,
    C10_assert_on_other_dtype ⟨[5], 1, 0⟩ ⟨[6], 1, 0⟩ ⟨[0], 1, 0⟩ .other
      (by decide) (by decide)⟩

lemma list_getD_of_getElem? {l : List ℤ} {k : ℕ} {x : ℤ}
    (h : l[k]? = some x) : l.getD k 0 = x := by
  rw [List.getD_eq_getElem?_getD, h]
  rfl

/-- C1: for equally-sized tensors whose values, offset values, and offset
products all fit the working width (the caller responsibility documented by the spec
responsibility for the chosen width), every output element is
`clamp(apply_shift(saturate_rounding_doubling_multiply((lhs[i]-lhs_zp)*(rhs[i]-rhs_zp),
multiplier), shift) + out_zp, -128, 127)`, with `(multiplier, shift)`
decomposed once from `lhs.scale * rhs.scale / output.scale`. -/
theorem C1_elementwise_formula (t1 t2 out : Tensor) (dt : Dtype) (msh : ℕ)
    (hdt : dt.multiplierShift = some msh)
    (hlen2 : t2.value.length = t1.value.length)
    (hlen3 : out.value.length = t1.value.length)
    (hbounds : ∀ i, i < t1.value.length →
      -2 ^ msh ≤ t1.value.getD i 0 ∧ t1.value.getD i 0 < 2 ^ msh ∧
      -2 ^ msh ≤ t1.value.getD i 0 - t1.zero_point ∧
      t1.value.getD i 0 - t1.zero_point < 2 ^ msh ∧
      -2 ^ msh ≤ t2.value.getD i 0 ∧ t2.value.getD i 0 < 2 ^ msh ∧
      -2 ^ msh ≤ t2.value.getD i 0 - t2.zero_point ∧
      t2.value.getD i 0 - t2.zero_point < 2 ^ msh ∧
      -2 ^ msh ≤ (t1.value.getD i 0 - t1.zero_point) * (t2.value.getD i 0 - t2.zero_point) ∧
      (t1.value.getD i 0 - t1.zero_point) * (t2.value.getD i 0 - t2.zero_point) < 2 ^ msh) :
    (multiply t1 t2 out dt).2 = none ∧
    ∀ i, i < t1.value.length →
      (multiply t1 t2 out dt).1.value.getD i 0 =
        clamp
          (apply_shift
            (saturate_rounding_doubling_multiply
              ((t1.value.getD i 0 - t1.zero_point) * (t2.value.getD i 0 - t2.zero_point))
              (decompose (t1.scale * t2.scale / out.scale) msh).1
              (msh + 1))
            (decompose (t1.scale * t2.scale / out.scale) msh).2
            + out.zero_point)
          (-128) 127 := by
  have hok := multiply_ok t1 t2 out msh dt hdt (by omega) (by omega)
  refine ⟨hok.1, fun i hi => ?_⟩
  have hv := hok.2.2.2 i
  rw [if_pos hi] at hv
  rw [list_getD_of_getElem? hv]
  obtain ⟨b1, b2, b3, b4, b5, b6, b7, b8, b9, b10⟩ := hbounds i hi
  exact elemStep_no_wrap (Nat.succ_pos msh) _ _ _ _ _ _ _
    (by simpa using b1) (by simpa using b2) (by simpa using b3) (by simpa using b4)
    (by simpa using b5) (by simpa using b6) (by simpa using b7) (by simpa using b8)
    (by simpa using b9) (by simpa using b10)

lemma multiply_eval (t1 t2 out : Tensor) (msh : ℕ) (dt : Dtype) (M S : ℤ)
    (hdt : dt.multiplierShift = some msh)
    (hdec : decompose (t1.scale * t2.scale / out.scale) msh = (M, S)) :
    multiply t1 t2 out dt =
      ({ out with
          value := (mulLoop (msh + 1) t1.zero_point t2.zero_point M S out.zero_point
            t1.value t2.value t1.value.length 0 out.value).1 },
        (mulLoop (msh + 1) t1.zero_point t2.zero_point M S out.zero_point
          t1.value t2.value t1.value.length 0 out.value).2) := by
  simp only [multiply, hdt, hdec]

lemma decompose_one_31 : decompose (1 : ℚ) 31 = (2 ^ 30, 1) := by
  have hlog : Int.log 2 |(1 : ℚ)| = 0 := by
    rw [abs_one]
    apply int_log_eval <;> norm_num
  have hfx : frexp (1 : ℚ) = (1 / 2, 1) := by
    rw [frexp, if_neg (by norm_num)]
    simp only [hlog]
    norm_num
  rw [decompose, hfx]
  simp only [truncQ]
  rw [if_pos (by norm_num)]
  rw [show ((1 : ℚ) / 2 * 2 ^ 31) = ((2 ^ 30 : ℤ) : ℚ) from by norm_num,
    Int.floor_intCast]

lemma decompose_neg_one_31 : decompose (-1 : ℚ) 31 = (-2 ^ 30, 1) := by
  have hlog : Int.log 2 |(-1 : ℚ)| = 0 := by
    rw [abs_neg, abs_one]
    apply int_log_eval <;> norm_num
  have hfx : frexp (-1 : ℚ) = (-(1 / 2), 1) := by
    rw [frexp, if_neg (by norm_num)]
    simp only [hlog]
    norm_num
  rw [decompose, hfx]
  simp only [truncQ]
  rw [if_neg (by norm_num)]
  rw [show (-((1 : ℚ) / 2) * 2 ^ 31) = ((-2 ^ 30 : ℤ) : ℚ) from by norm_num]
  rw [show (-((-2 ^ 30 : ℤ) : ℚ)) = ((2 ^ 30 : ℤ) : ℚ) from by push_cast; ring]
  rw [Int.floor_intCast]

example : mulLoop 32 0 0 (2 ^ 30) 1 0 [5] [5] 1 0 [0, 0] = ([26, 0], none) := by decide
example : mulLoop 32 0 0 (2 ^ 30) 1 0 [5, 5] [5, 5] 2 0 [0] = ([26], some .indexError) := by decide
example : mulLoop 32 0 0 (-2 ^ 30) 1 0 [10] [3] 1 0 [0] = ([-30], none) := by decide

/-- C5 (counterexample): the code performs no shape check.  With inputs of one
element and an output buffer of two elements (mismatched counts), the call
completes with no error at all — there is no `ShapeMismatchError` — and the
first output element has been written. -/
theorem C5_counterexample :
    (⟨[5], 1, 0⟩ : Tensor).value.length ≠ (⟨[0, 0], 1, 0⟩ : Tensor).value.length ∧
    (multiply ⟨[5], 1, 0⟩ ⟨[5], 1, 0⟩ ⟨[0, 0], 1, 0⟩ .i32).2 = none ∧
    (multiply ⟨[5], 1, 0⟩ ⟨[5], 1, 0⟩ ⟨[0, 0], 1, 0⟩ .i32).1.value = [26, 0] := by
  have hdec : decompose ((1 : ℚ) * 1 / 1) 31 = (2 ^ 30, 1) := by
    rw [show ((1 : ℚ) * 1 / 1) = 1 from by norm_num]
    exact decompose_one_31
  rw [multiply_eval ⟨[5], 1, 0⟩ ⟨[5], 1, 0⟩ ⟨[0, 0], 1, 0⟩ 31 .i32 (2 ^ 30) 1 rfl hdec]
  exact ⟨by decide, by decide, by decide⟩

/-- C5 (amended): no shape check exists.  When the output buffer is strictly
shorter than the inputs, the kernel raises an index error only at the first
out-of-range write — after per-element work has begun — and every position of
the output buffer has already been overwritten with its computed value. -/
theorem C5_short_output_index_error (t1 t2 out : Tensor) (dt : Dtype) (msh : ℕ)
    (hdt : dt.multiplierShift = some msh)
    (hlen2 : t2.value.length = t1.value.length)
    (hlen3 : out.value.length < t1.value.length) :
    (multiply t1 t2 out dt).2 = some .indexError ∧
    ∀ k, k < out.value.length →
      (multiply t1 t2 out dt).1.value[k]? =
        some (elemStep (msh + 1) t1.zero_point t2.zero_point
          (decompose (t1.scale * t2.scale / out.scale) msh).1
          (decompose (t1.scale * t2.scale / out.scale) msh).2
          out.zero_point (t1.value.getD k 0) (t2.value.getD k 0)) := by
  have h := multiply_overrun t1 t2 out msh dt hdt (by omega) hlen3
  refine ⟨h.1, fun k hk => ?_⟩
  have hv := h.2.2.2 k
  rw [if_pos hk] at hv
  exact hv

/-- C5 witness: a two-element input with a one-element output raises the
index error after writing the existing position. -/
theorem C5_witness :
    (Dtype.multiplierShift .i32 = some 31) ∧
    ((⟨[5, 5], 1, 0⟩ : Tensor).value.length = (⟨[5, 5], 1, 0⟩ : Tensor).value.length) ∧
    ((⟨[0], 1, 0⟩ : Tensor).value.length < (⟨[5, 5], 1, 0⟩ : Tensor).value.length) ∧
    ((multiply ⟨[5, 5], 1, 0⟩ ⟨[5, 5], 1, 0⟩ ⟨[0], 1, 0⟩ .i32).2 = some .indexError ∧
      ∀ k, k < (⟨[0], 1, 0⟩ : Tensor).value.length →
        (multiply ⟨[5, 5], 1, 0⟩ ⟨[5, 5], 1, 0⟩ ⟨[0], 1, 0⟩ .i32).1.value[k]? =
          some (elemStep (31 + 1) (⟨[5, 5], 1, 0⟩ : Tensor).zero_point
            (⟨[5, 5], 1, 0⟩ : Tensor).zero_point
            (decompose ((⟨[5, 5], 1, 0⟩ : Tensor).scale * (⟨[5, 5], 1, 0⟩ : Tensor).scale /
              (⟨[0], 1, 0⟩ : Tensor).scale) 31).1
            (decompose ((⟨[5, 5], 1, 0⟩ : Tensor).scale * (⟨[5, 5], 1, 0⟩ : Tensor).scale /
              (⟨[0], 1, 0⟩ : Tensor).scale) 31).2
            (⟨[0], 1, 0⟩ : Tensor).zero_point
            ((⟨[5, 5], 1, 0⟩ : Tensor).value.getD k 0)
            ((⟨[5, 5], 1, 0⟩ : Tensor).value.getD k 0))) :=
  ⟨rfl, rfl, by decide,
    C5_short_output_index_error ⟨[5, 5], 1, 0⟩ ⟨[5, 5], 1, 0⟩ ⟨[0], 1, 0⟩ .i32 31
      rfl rfl (by decide)⟩

/-- C6 (counterexample): the code performs no domain check on `real_scale`.
With `real_scale = -1 * 1 / 1 = -1 ≤ 0`, the call completes with no error —
there is no `DomainError` — and the output buffer has been written. -/
theorem C6_counterexample :
    ((⟨[10], -1, 0⟩ : Tensor).scale * (⟨[3], 1, 0⟩ : Tensor).scale /
      (⟨[0], 1, 0⟩ : Tensor).scale ≤ 0) ∧
    (multiply ⟨[10], -1, 0⟩ ⟨[3], 1, 0⟩ ⟨[0], 1, 0⟩ .i32).2 = none ∧
    (multiply ⟨[10], -1, 0⟩ ⟨[3], 1, 0⟩ ⟨[0], 1, 0⟩ .i32).1.value = [-30] := by
  have hdec : decompose ((-1 : ℚ) * 1 / 1) 31 = (-2 ^ 30, 1) := by
    rw [show ((-1 : ℚ) * 1 / 1) = -1 from by norm_num]
    exact decompose_neg_one_31
  refine ⟨show ((-1 : ℚ) * 1 / 1 ≤ 0) from by norm_num, ?_⟩
  rw [multiply_eval ⟨[10], -1, 0⟩ ⟨[3], 1, 0⟩ ⟨[0], 1, 0⟩ 31 .i32 (-2 ^ 30) 1 rfl hdec]
  exact ⟨by decide, by decide⟩

/-- C6 (amended): the kernel performs no domain check: even when the derived
`real_scale` is non-positive, an invocation with matching element counts
completes without raising any error (the frexp decomposition of the
non-positive value is used as-is).  Non-finite scales have no counterpart in
the exact-arithmetic model. -/
theorem C6_no_domain_check (t1 t2 out : Tensor) (dt : Dtype) (msh : ℕ)
    (hdt : dt.multiplierShift = some msh)
    (_hscale : t1.scale * t2.scale / out.scale ≤ 0)
    (hlen2 : t2.value.length = t1.value.length)
    (hlen3 : out.value.length = t1.value.length) :
    (multiply t1 t2 out dt).2 = none :=
  (multiply_ok t1 t2 out msh dt hdt (by omega) (by omega)).1

/-- C6 witness: the no-error behaviour at a concrete negative `real_scale`. -/
theorem C6_witness :
    (Dtype.multiplierShift .i32 = some 31) ∧
    ((⟨[10], -1, 0⟩ : Tensor).scale * (⟨[3], 1, 0⟩ : Tensor).scale /
      (⟨[0], 1, 0⟩ : Tensor).scale ≤ 0) ∧
    ((⟨[3], 1, 0⟩ : Tensor).value.length = (⟨[10], -1, 0⟩ : Tensor).value.length) ∧
    ((⟨[0], 1, 0⟩ : Tensor).value.length = (⟨[10], -1, 0⟩ : Tensor).value.length) ∧
    (multiply ⟨[10], -1, 0⟩ ⟨[3], 1, 0⟩ ⟨[0], 1, 0⟩ .i32).2 = none :=
  ⟨rfl, show ((-1 : ℚ) * 1 / 1 ≤ 0) from by norm_num, rfl, rfl,
    C6_no_domain_check ⟨[10], -1, 0⟩ ⟨[3], 1, 0⟩ ⟨[0], 1, 0⟩ .i32 31 rfl
      (show ((-1 : ℚ) * 1 / 1 ≤ 0) from by norm_num) rfl rfl⟩

/-- C9: when the output buffer has strictly more elements than the (equally
sized) inputs, the kernel completes without raising, writes exactly the first
`n` flattened positions with their computed values, and leaves every position
at index `n` or beyond unchanged. -/
theorem C9_larger_output_untouched_tail (t1 t2 out : Tensor) (dt : Dtype) (msh : ℕ)
    (hdt : dt.multiplierShift = some msh)
    (hlen2 : t2.value.length = t1.value.length)
    (hlen3 : t1.value.length < out.value.length) :
    (multiply t1 t2 out dt).2 = none ∧
    (∀ k, k < t1.value.length →
      (multiply t1 t2 out dt).1.value[k]? =
        some (elemStep (msh + 1) t1.zero_point t2.zero_point
          (decompose (t1.scale * t2.scale / out.scale) msh).1
          (decompose (t1.scale * t2.scale / out.scale) msh).2
          out.zero_point (t1.value.getD k 0) (t2.value.getD k 0))) ∧
    ∀ k, t1.value.length ≤ k →
      (multiply t1 t2 out dt).1.value[k]? = out.value[k]? := by
  have hok := multiply_ok t1 t2 out msh dt hdt (by omega) (by omega)
  refine ⟨hok.1, fun k hk => ?_, fun k hk => ?_⟩
  · have hv := hok.2.2.2 k
    rw [if_pos hk] at hv
    exact hv
  · have hv := hok.2.2.2 k
    rw [if_neg (by omega)] at hv
    exact hv

/-- C9 witness: one-element inputs with a two-element output buffer write
position 0 and leave position 1 untouched. -/
theorem C9_witness :
    (Dtype.multiplierShift .i32 = some 31) ∧
    ((⟨[5], 1, 0⟩ : Tensor).value.length = (⟨[5], 1, 0⟩ : Tensor).value.length) ∧
    ((⟨[5], 1, 0⟩ : Tensor).value.length < (⟨[0, 7], 1, 0⟩ : Tensor).value.length) ∧
    ((multiply ⟨[5], 1, 0⟩ ⟨[5], 1, 0⟩ ⟨[0, 7], 1, 0⟩ .i32).2 = none ∧
      (∀ k, k < (⟨[5], 1, 0⟩ : Tensor).value.length →
        (multiply ⟨[5], 1, 0⟩ ⟨[5], 1, 0⟩ ⟨[0, 7], 1, 0⟩ .i32).1.value[k]? =
          some (elemStep (31 + 1) (⟨[5], 1, 0⟩ : Tensor).zero_point
            (⟨[5], 1, 0⟩ : Tensor).zero_point
            (decompose ((⟨[5], 1, 0⟩ : Tensor).scale * (⟨[5], 1, 0⟩ : Tensor).scale /
              (⟨[0, 7], 1, 0⟩ : Tensor).scale) 31).1
            (decompose ((⟨[5], 1, 0⟩ : Tensor).scale * (⟨[5], 1, 0⟩ : Tensor).scale /
              (⟨[0, 7], 1, 0⟩ : Tensor).scale) 31).2
            (⟨[0, 7], 1, 0⟩ : Tensor).zero_point
            ((⟨[5], 1, 0⟩ : Tensor).value.getD k 0)
            ((⟨[5], 1, 0⟩ : Tensor).value.getD k 0))) ∧
      ∀ k, (⟨[5], 1, 0⟩ : Tensor).value.length ≤ k →
        (multiply ⟨[5], 1, 0⟩ ⟨[5], 1, 0⟩ ⟨[0, 7], 1, 0⟩ .i32).1.value[k]? =
          (⟨[0, 7], 1, 0⟩ : Tensor).value[k]?) :=
  ⟨rfl, rfl, by decide,
    C9_larger_output_untouched_tail ⟨[5], 1, 0⟩ ⟨[5], 1, 0⟩ ⟨[0, 7], 1, 0⟩ .i32 31
      rfl rfl (by decide)⟩

/-- C8: a valid invocation leaves both input tensors entirely unchanged and
the scale and zero point of the output tensor unchanged; the output value buffer
becomes exactly the element-by-element map of the per-element computation
over the flattened index order. -/
theorem C8_frame_in_place (t1 t2 out : Tensor) (dt : Dtype) (msh : ℕ)
    (hdt : dt.multiplierShift = some msh)
    (hlen2 : t2.value.length = t1.value.length)
    (hlen3 : out.value.length = t1.value.length) :
    (multiplyInPlace (t1, t2, out) dt).1.1 = t1 ∧
    (multiplyInPlace (t1, t2, out) dt).1.2.1 = t2 ∧
    (multiplyInPlace (t1, t2, out) dt).1.2.2.scale = out.scale ∧
    (multiplyInPlace (t1, t2, out) dt).1.2.2.zero_point = out.zero_point ∧
    (multiplyInPlace (t1, t2, out) dt).1.2.2.value =
      (List.range t1.value.length).map (fun i =>
        elemStep (msh + 1) t1.zero_point t2.zero_point
          (decompose (t1.scale * t2.scale / out.scale) msh).1
          (decompose (t1.scale * t2.scale / out.scale) msh).2
          out.zero_point (t1.value.getD i 0) (t2.value.getD i 0)) := by
  have hok := multiply_ok t1 t2 out msh dt hdt (by omega) (by omega)
  refine ⟨rfl, rfl, hok.2.1, hok.2.2.1, ?_⟩
  apply List.ext_getElem?
  intro k
  show (multiply t1 t2 out dt).1.value[k]? = _
  rw [hok.2.2.2 k, List.getElem?_map]
  by_cases hk : k < t1.value.length
  · rw [if_pos hk, List.getElem?_range hk]
    rfl
  · rw [if_neg hk]
    have h1 : out.value[k]? = none := List.getElem?_eq_none (by omega)
    have h2 : (List.range t1.value.length)[k]? = none :=
      List.getElem?_eq_none (by simpa using Nat.le_of_not_lt hk)
    rw [h1, h2]
    rfl

/-- C8 witness: the frame property at a concrete valid invocation. -/
theorem C8_witness :
    (Dtype.multiplierShift .i32 = some 31) ∧
    ((⟨[7], 1, 0⟩ : Tensor).value.length = (⟨[5], 1, 1⟩ : Tensor).value.length) ∧
    ((⟨[0], 1, 2⟩ : Tensor).value.length = (⟨[5], 1, 1⟩ : Tensor).value.length) ∧
    ((multiplyInPlace (⟨[5], 1, 1⟩, ⟨[7], 1, 0⟩, ⟨[0], 1, 2⟩) .i32).1.1 = ⟨[5], 1, 1⟩ ∧
      (multiplyInPlace (⟨[5], 1, 1⟩, ⟨[7], 1, 0⟩, ⟨[0], 1, 2⟩) .i32).1.2.1 = ⟨[7], 1, 0⟩ ∧
      (multiplyInPlace (⟨[5], 1, 1⟩, ⟨[7], 1, 0⟩, ⟨[0], 1, 2⟩) .i32).1.2.2.scale =
        (⟨[0], 1, 2⟩ : Tensor).scale ∧
      (multiplyInPlace (⟨[5], 1, 1⟩, ⟨[7], 1, 0⟩, ⟨[0], 1, 2⟩) .i32).1.2.2.zero_point =
        (⟨[0], 1, 2⟩ : Tensor).zero_point ∧
      (multiplyInPlace (⟨[5], 1, 1⟩, ⟨[7], 1, 0⟩, ⟨[0], 1, 2⟩) .i32).1.2.2.value =
        (List.range (⟨[5], 1, 1⟩ : Tensor).value.length).map (fun i =>
          elemStep (31 + 1) (⟨[5], 1, 1⟩ : Tensor).zero_point
            (⟨[7], 1, 0⟩ : Tensor).zero_point
            (decompose ((⟨[5], 1, 1⟩ : Tensor).scale * (⟨[7], 1, 0⟩ : Tensor).scale /
              (⟨[0], 1, 2⟩ : Tensor).scale) 31).1
            (decompose ((⟨[5], 1, 1⟩ : Tensor).scale * (⟨[7], 1, 0⟩ : Tensor).scale /
              (⟨[0], 1, 2⟩ : Tensor).scale) 31).2
            (⟨[0], 1, 2⟩ : Tensor).zero_point
            ((⟨[5], 1, 1⟩ : Tensor).value.getD i 0)
            ((⟨[7], 1, 0⟩ : Tensor).value.getD i 0))) :=
  ⟨rfl, rfl, rfl,
    C8_frame_in_place ⟨[5], 1, 1⟩ ⟨[7], 1, 0⟩ ⟨[0], 1, 2⟩ .i32 31 rfl rfl rfl⟩

lemma apply_shift_one (r : ℤ) : apply_shift r 1 = r * 2 := by
  simp [apply_shift]

lemma decompose_one_eq {msh : ℕ} (hm : 1 ≤ msh) :
    decompose (1 : ℚ) msh = (2 ^ (msh - 1), 1) := by
  have hlog : Int.log 2 |(1 : ℚ)| = 0 := by
    rw [abs_one]
    apply int_log_eval <;> norm_num
  have hfx : frexp (1 : ℚ) = (1 / 2, 1) := by
    rw [frexp, if_neg (by norm_num)]
    simp only [hlog]
    norm_num
  rw [decompose, hfx]
  simp only [truncQ]
  rw [if_pos (by norm_num)]
  have hp : (2 : ℚ) ^ msh = 2 ^ (msh - 1) * 2 := by
    rw [← pow_succ]
    congr 1
    omega
  rw [show ((1 : ℚ) / 2 * 2 ^ msh) = ((2 ^ (msh - 1) : ℤ) : ℚ) from by
    rw [hp]; push_cast; ring]
  rw [Int.floor_intCast]

lemma srdm_pow_half {msh : ℕ} (hm : 1 ≤ msh) (t : ℤ)
    (hlo : -(2 ^ msh - 1) ≤ t) (hhi : t ≤ 2 ^ msh - 1) :
    saturate_rounding_doubling_multiply t (2 ^ (msh - 1)) (msh + 1)
      = if 0 ≤ t then (t + 1) / 2 else -((-t + 1) / 2) := by
  have hpos : (0 : ℤ) < 2 ^ (msh - 1) := pow_pos (by norm_num) _
  have hp : (2 : ℤ) ^ msh = 2 ^ (msh - 1) * 2 := by
    rw [← pow_succ]
    congr 1
    omega
  simp only [saturate_rounding_doubling_multiply, Nat.add_sub_cancel]
  have hd2 : (2 : ℤ) ^ msh / 2 = 2 ^ (msh - 1) := by
    rw [hp, Int.mul_ediv_cancel _ (by norm_num)]
  rw [hd2]
  by_cases ht : 0 ≤ t
  · rw [if_pos (mul_nonneg ht (le_of_lt hpos)), if_pos ht]
    rw [show (t * 2 ^ (msh - 1) + 2 ^ (msh - 1)) = 2 ^ (msh - 1) * (t + 1) from by ring]
    rw [hp, Int.mul_ediv_mul_of_pos _ _ hpos]
    unfold clamp
    rw [max_eq_left (by omega), min_eq_left (by omega)]
  · rw [if_neg (by nlinarith), if_neg ht]
    rw [show (-(t * 2 ^ (msh - 1)) + 2 ^ (msh - 1)) = 2 ^ (msh - 1) * (-t + 1) from by ring]
    rw [hp, Int.mul_ediv_mul_of_pos _ _ hpos]
    unfold clamp
    rw [max_eq_left (by omega), min_eq_left (by omega)]

lemma identity_scale_step {msh : ℕ} (hm : 1 ≤ msh) (h2m : (32768 : ℤ) ≤ 2 ^ msh)
    (v1 v2 : ℤ) (h1 : -128 ≤ v1) (h1h : v1 ≤ 127) (h2 : -128 ≤ v2) (h2h : v2 ≤ 127) :
    |elemStep (msh + 1) 0 0 (2 ^ (msh - 1)) 1 0 v1 v2 -
      clamp (v1 * v2) (-128) 127| ≤ 1 := by
  have hw : 0 < msh + 1 := Nat.succ_pos _
  have ht1 : v1 * v2 ≤ 16384 := by nlinarith
  have ht2 : -16384 ≤ v1 * v2 := by nlinarith
  have hgap : (128 : ℤ) ≤ 2 ^ msh := by linarith
  have e1 : toSigned (msh + 1) v1 = v1 :=
    toSigned_eq_self hw (by simp only [Nat.add_sub_cancel]; linarith)
      (by simp only [Nat.add_sub_cancel]; linarith)
  have e2 : toSigned (msh + 1) v2 = v2 :=
    toSigned_eq_self hw (by simp only [Nat.add_sub_cancel]; linarith)
      (by simp only [Nat.add_sub_cancel]; linarith)
  have e3 : toSigned (msh + 1) (v1 * v2) = v1 * v2 :=
    toSigned_eq_self hw (by simp only [Nat.add_sub_cancel]; linarith)
      (by simp only [Nat.add_sub_cancel]; linarith)
  simp only [elemStep, sub_zero, e1, e2, e3, add_zero]
  rw [srdm_pow_half hm _ (by linarith) (by linarith), apply_shift_one]
  refine le_trans (clamp_lipschitz _ _ _ _) ?_
  rw [abs_le]
  by_cases ht : 0 ≤ v1 * v2
  · rw [if_pos ht]
    omega
  · rw [if_neg ht]
    omega

/-- C7: when `lhs.scale * rhs.scale = output.scale` and all three zero points
are 0, the kernel output agrees, up to one unit of rounding, with the plain
integer product clamped to the signed 8-bit output range `[-128, 127]`. -/
theorem C7_identity_scale_plain_product (t1 t2 out : Tensor) (dt : Dtype) (msh : ℕ)
    (hdt : dt.multiplierShift = some msh)
    (hscale : t1.scale * t2.scale = out.scale) (hs3 : out.scale ≠ 0)
    (hzp1 : t1.zero_point = 0) (hzp2 : t2.zero_point = 0) (hzp3 : out.zero_point = 0)
    (hlen2 : t2.value.length = t1.value.length)
    (hlen3 : out.value.length = t1.value.length)
    (hb : ∀ i, i < t1.value.length →
      -128 ≤ t1.value.getD i 0 ∧ t1.value.getD i 0 ≤ 127 ∧
      -128 ≤ t2.value.getD i 0 ∧ t2.value.getD i 0 ≤ 127) :
    (multiply t1 t2 out dt).2 = none ∧
    ∀ i, i < t1.value.length →
      |(multiply t1 t2 out dt).1.value.getD i 0 -
        clamp (t1.value.getD i 0 * t2.value.getD i 0) (-128) 127| ≤ 1 := by
  have hmsh : msh = 31 ∨ msh = 15 := by
    cases dt <;> simp [Dtype.multiplierShift] at hdt <;> omega
  have hreal : t1.scale * t2.scale / out.scale = 1 := by
    rw [hscale, div_self hs3]
  have hm1 : 1 ≤ msh := by omega
  have h2m : (32768 : ℤ) ≤ 2 ^ msh := by
    rcases hmsh with rfl | rfl <;> norm_num
  have hok := multiply_ok t1 t2 out msh dt hdt (by omega) (by omega)
  refine ⟨hok.1, fun i hi => ?_⟩
  have hv := hok.2.2.2 i
  rw [if_pos hi] at hv
  rw [list_getD_of_getElem? hv, hreal, decompose_one_eq hm1, hzp1, hzp2, hzp3]
  obtain ⟨b1, b2, b3, b4⟩ := hb i hi
  exact identity_scale_step hm1 h2m _ _ b1 b2 b3 b4

/-- C7 witness: scales `1/2 * 2 = 1`, zero points 0, values 10 and -3. -/
theorem C7_witness :
    (Dtype.multiplierShift .i32 = some 31) ∧
    ((⟨[10], 1 / 2, 0⟩ : Tensor).scale * (⟨[-3], 2, 0⟩ : Tensor).scale =
      (⟨[0], 1, 0⟩ : Tensor).scale) ∧
    ((⟨[0], 1, 0⟩ : Tensor).scale ≠ 0) ∧
    ((⟨[10], 1 / 2, 0⟩ : Tensor).zero_point = 0) ∧
    ((⟨[-3], 2, 0⟩ : Tensor).zero_point = 0) ∧
    ((⟨[0], 1, 0⟩ : Tensor).zero_point = 0) ∧
    ((multiply ⟨[10], 1 / 2, 0⟩ ⟨[-3], 2, 0⟩ ⟨[0], 1, 0⟩ .i32).2 = none ∧
      ∀ i, i < (⟨[10], 1 / 2, 0⟩ : Tensor).value.length →
        |(multiply ⟨[10], 1 / 2, 0⟩ ⟨[-3], 2, 0⟩ ⟨[0], 1, 0⟩ .i32).1.value.getD i 0 -
          clamp ((⟨[10], 1 / 2, 0⟩ : Tensor).value.getD i 0 *
            (⟨[-3], 2, 0⟩ : Tensor).value.getD i 0) (-128) 127| ≤ 1) :=
  ⟨rfl, show (1 / 2 : ℚ) * 2 = 1 from by norm_num,
    show (1 : ℚ) ≠ 0 from by norm_num, rfl, rfl, rfl,
    C7_identity_scale_plain_product ⟨[10], 1 / 2, 0⟩ ⟨[-3], 2, 0⟩ ⟨[0], 1, 0⟩ .i32 31
      rfl (show (1 / 2 : ℚ) * 2 = 1 from by norm_num)
      (show (1 : ℚ) ≠ 0 from by norm_num) rfl rfl rfl rfl rfl (by decide)⟩

/-- C1 witness: the elementwise formula at a concrete one-element invocation
(lhs value 10 with zero point 2, rhs value -3, output zero point -36). -/
theorem C1_witness :
    (Dtype.multiplierShift .i32 = some 31) ∧
    ((⟨[-3], 1, 0⟩ : Tensor).value.length = (⟨[10], 1, 2⟩ : Tensor).value.length) ∧
    ((⟨[0], 1, -36⟩ : Tensor).value.length = (⟨[10], 1, 2⟩ : Tensor).value.length) ∧
    ((multiply ⟨[10], 1, 2⟩ ⟨[-3], 1, 0⟩ ⟨[0], 1, -36⟩ .i32).2 = none ∧
      ∀ i, i < (⟨[10], 1, 2⟩ : Tensor).value.length →
        (multiply ⟨[10], 1, 2⟩ ⟨[-3], 1, 0⟩ ⟨[0], 1, -36⟩ .i32).1.value.getD i 0 =
          clamp
            (apply_shift
              (saturate_rounding_doubling_multiply
                (((⟨[10], 1, 2⟩ : Tensor).value.getD i 0 -
                    (⟨[10], 1, 2⟩ : Tensor).zero_point) *
                  ((⟨[-3], 1, 0⟩ : Tensor).value.getD i 0 -
                    (⟨[-3], 1, 0⟩ : Tensor).zero_point))
                (decompose ((⟨[10], 1, 2⟩ : Tensor).scale * (⟨[-3], 1, 0⟩ : Tensor).scale /
                  (⟨[0], 1, -36⟩ : Tensor).scale) 31).1
                (31 + 1))
              (decompose ((⟨[10], 1, 2⟩ : Tensor).scale * (⟨[-3], 1, 0⟩ : Tensor).scale /
                (⟨[0], 1, -36⟩ : Tensor).scale) 31).2
              + (⟨[0], 1, -36⟩ : Tensor).zero_point)
            (-128) 127) :=
  ⟨rfl, rfl, rfl,
    C1_elementwise_formula ⟨[10], 1, 2⟩ ⟨[-3], 1, 0⟩ ⟨[0], 1, -36⟩ .i32 31
      rfl rfl rfl (by decide)⟩
